import Mathlib

/-
Verification development for the temporal-correspondence and
velocity-estimation engine of the pianolatron-data scripts
(align-and-compare.py and relatives).

Conventions of the embedding:
 - Python floats are modelled as rationals (ℚ); MIDI ticks as integers (ℤ);
   category / character codes as naturals (ℕ).
 - Fallible Python code (exceptions, early `return` on error, out-of-range
   indexing) is modelled with `Except PipeError`.
 - The discrete aligner (Bio.pairwise2.align.globalxx) and the continuous
   time-warp aligner (librosa.sequence.dtw) are external library calls; they
   are modelled from the specification (Needleman-Wunsch global alignment
   with match = 1, mismatch = 0, gap = 0; classic DTW with steps
   (+1,+1), (+1,0), (0,+1)), written with structural recursion so that they
   evaluate on concrete inputs.
-/

/-- Error taxonomy of the pipeline, covering the spec's `InputEncodingError`,
`AlignmentConsistencyError` and `InsufficientDataError` plus the index /
degenerate-arithmetic failures Python would raise as exceptions. -/
inductive PipeError where
  | inputEncoding
  | consistency
  | insufficientData
  | seqIndex
  | eventIndex
  | indexError
  | degenerate
  deriving DecidableEq, Repr

/-- Gap sentinel of the discrete aligner: the character code of the dash,
`gap_char = "-"` in the source. -/
def gapCode : ℕ := 45

/-- Category-to-character encoding of the source,
`chr(note).replace("-", "~")`: character code 45 is rewritten to 126. -/
def encodeChar (n : ℕ) : ℕ := if n = 45 then 126 else n

/-- Character-to-category decoding of the source,
`ord(item.replace("~", "-"))`: character code 126 is rewritten to 45. -/
def decodeChar (c : ℕ) : ℕ := if c = 126 then 45 else c

/-- Encoding of a whole category sequence,
`[chr(note).replace("-", "~") for note in notes]`. -/
def encodeNotes (notes : List ℕ) : List ℕ := notes.map encodeChar

/-- Match score of the substitution-free scoring scheme of the spec:
match = +1, mismatch = 0. -/
def matchScore (a b : ℕ) : ℤ := if a = b then 1 else 0

/-- Modelled from the spec: optimal global-alignment score of
`Bio.pairwise2.align.globalxx` (Needleman-Wunsch, match = +1, mismatch = 0,
gap = 0), which is not part of this repository. `nwRow a g` is the score
of aligning `a :: as` against the second argument, where `g` scores `as`
against arbitrary suffixes. -/
def nwRow (a : ℕ) (g : List ℕ → ℤ) : List ℕ → ℤ
  | [] => 0
  | b :: bs => max (matchScore a b + g bs) (max (g (b :: bs)) (nwRow a g bs))

/-- Modelled from the spec: global-alignment score of two category
sequences under the match = +1, mismatch = 0, gap = 0 scheme. -/
def nwScore : List ℕ → List ℕ → ℤ
  | [], _ => 0
  | a :: as, bs => nwRow a (nwScore as) bs

/-- Modelled from the spec: one optimal global alignment of `a :: as`
against the argument, given the score function `gscore` and aligner
`galign` for `as`.  Ties are broken by the fixed preference order of the
spec: diagonal first, then a gap in the reference sequence, then a gap in
the target sequence. -/
def nwAlignRow (a : ℕ) (gscore : List ℕ → ℤ) (galign : List ℕ → List ℕ × List ℕ) :
    List ℕ → List ℕ × List ℕ
  | [] =>
    let r := galign []
    (a :: r.1, gapCode :: r.2)
  | b :: bs =>
    let diag := matchScore a b + gscore bs
    let refGap := nwRow a gscore bs
    let tgtGap := gscore (b :: bs)
    if diag ≥ refGap ∧ diag ≥ tgtGap then
      let r := galign bs
      (a :: r.1, b :: r.2)
    else if refGap ≥ tgtGap then
      let r := nwAlignRow a gscore galign bs
      (gapCode :: r.1, b :: r.2)
    else
      let r := galign (b :: bs)
      (a :: r.1, gapCode :: r.2)

/-- Modelled from the spec: the Discrete Sequence Aligner
(`Bio.pairwise2.align.globalxx`, not part of this repository): one optimal
Needleman-Wunsch global alignment, returned as the pair of equal-length
gapped sequences `(seqA, seqB)` with `gapCode` marking gaps. -/
def nwAlign : List ℕ → List ℕ → List ℕ × List ℕ
  | [], bs => (bs.map (fun _ => gapCode), bs)
  | a :: as, bs => nwAlignRow a (nwScore as) (nwAlign as) bs

/-- Discrete alignment stage of `main`: encode both note sequences as
character codes, refuse with the gap-collision check
`if (gap_char in unaccel_chars) or (gap_char in accel_chars): return`,
otherwise align. -/
def discreteAlignStage (uNotes aNotes : List ℕ) :
    Except PipeError (List ℕ × List ℕ) :=
  let uChars := encodeNotes uNotes
  let aChars := encodeNotes aNotes
  if gapCode ∈ uChars ∨ gapCode ∈ aChars then Except.error .inputEncoding
  else Except.ok (nwAlign uChars aChars)

/-- No position of an alignment carries the gap sentinel on both sides. -/
def noDoubleGap (sa sb : List ℕ) : Prop :=
  ∀ p ∈ sa.zip sb, ¬(p.1 = gapCode ∧ p.2 = gapCode)

/-- One normalized note event `(note_number, current_tick, time_in_seconds)`
as produced by `get_midi_timings` / `get_chroma_timings`. -/
structure Event where
  category : ℕ
  tick : ℤ
  time : ℚ
  deriving DecidableEq, Repr

/-- Correspondence: the dict `matched_events_by_unaccel_ticks`, modelled as
an association list from reference tick to the list of
`(reference_time, target_time)` pairs in arrival order. -/
abbrev Corr := List (ℤ × List (ℚ × ℚ))

/-- Insertion into the correspondence dict: append to the pair list of an
existing tick key, otherwise add a fresh key at the end. -/
def corrInsert (m : Corr) (tick : ℤ) (pair : ℚ × ℚ) : Corr :=
  if m.any (fun e => e.1 = tick) then
    m.map (fun e => if e.1 = tick then (e.1, e.2 ++ [pair]) else e)
  else m ++ [(tick, [pair])]

/-- Lookup in the correspondence dict (keys inserted by `corrInsert` are
unique, so `find?` returns the full pair list of the key). -/
def corrLookup (m : Corr) (k : ℤ) : List (ℚ × ℚ) :=
  match m.find? (fun e => e.1 = k) with
  | some e => e.2
  | none => []

/-- Mutable loop state of the correspondence-building walk over the two
aligned sequences: the two original-sequence cursors and the accumulated
dict. -/
structure WalkState where
  uc : ℕ
  ac : ℕ
  corr : Corr
  deriving DecidableEq, Repr

/-- Correspondence Builder for discrete alignments: the walk of `main` over
`unaccel_seq` / `accel_seq`.  Each iteration first breaks out of the loop
if either cursor has reached the end of its event list, then fetches the
events at both cursors (out-of-range fetches would raise, modelled as
`.eventIndex`), skips gap positions (they are only logged), validates the
decoded categories against both events on non-gap positions (mismatch
aborts with `.consistency`, the spec's `AlignmentConsistencyError`),
records the matched pair keyed by the reference tick, and finally advances
each cursor on non-gap symbols.  Indexing `accel_seq[i]` past its length
raises, modelled as `.seqIndex`. -/
def walkAligned (uEv aEv : List Event) :
    List ℕ → List ℕ → WalkState → Except PipeError Corr
  | [], _, s => Except.ok s.corr
  | _ :: _, [], _ => Except.error .seqIndex
  | u :: us, a :: as, s =>
    if s.uc ≥ uEv.length ∨ s.ac ≥ aEv.length then Except.ok s.corr
    else
      match uEv.get? s.uc, aEv.get? s.ac with
      | some ue, some ae =>
        let uc' := if u = gapCode then s.uc else s.uc + 1
        let ac' := if a = gapCode then s.ac else s.ac + 1
        if u = gapCode ∨ a = gapCode then
          walkAligned uEv aEv us as ⟨uc', ac', s.corr⟩
        else
          let uNum := decodeChar u
          let aNum := decodeChar a
          if uNum ≠ ue.category then Except.error .consistency
          else if aNum ≠ ae.category then Except.error .consistency
          else if aNum ≠ uNum then Except.error .consistency
          else
            walkAligned uEv aEv us as
              ⟨uc', ac', corrInsert s.corr ue.tick (ue.time, ae.time)⟩
      | _, _ => Except.error .eventIndex

/-- Persistence Adapter, modelled from the spec: the pickled alignment data
is just the two sequences, and a load after a save returns them verbatim. -/
def persistAlignment (a : List ℕ × List ℕ) : Option (List ℕ × List ℕ) :=
  some a

/-- Load-or-recompute of the alignment cache in `main`: a cache hit returns
the stored sequences, a miss computes the alignment afresh. -/
def loadOrComputeAlignment (cached : Option (List ℕ × List ℕ))
    (uChars aChars : List ℕ) : List ℕ × List ℕ :=
  match cached with
  | some stored => stored
  | none => nwAlign uChars aChars

/-- Insertion of an element into a sorted list, used to model Python's
`sorted`. -/
def insertSorted {α : Type} [LinearOrder α] (x : α) : List α → List α
  | [] => [x]
  | y :: ys => if x ≤ y then x :: y :: ys else y :: insertSorted x ys

/-- Insertion sort modelling Python's `sorted`. -/
def sortL {α : Type} [LinearOrder α] : List α → List α
  | [] => []
  | x :: xs => insertSorted x (sortL xs)

/-- Python's `statistics.median`: sort, then middle element (odd length) or
mean of the two middle elements (even length); raises on empty data,
the spec's `InsufficientDataError`. -/
def statsMedian (l : List ℚ) : Except PipeError ℚ :=
  if l.length = 0 then Except.error .insufficientData
  else
    let s := sortL l
    let n := l.length
    if n % 2 = 1 then Except.ok (s.getD (n / 2) 0)
    else Except.ok ((s.getD (n / 2 - 1) 0 + s.getD (n / 2) 0) / 2)

/-- Python's `statistics.mean`: raises on empty data. -/
def statsMean (l : List ℚ) : Except PipeError ℚ :=
  if l.length = 0 then Except.error .insufficientData
  else Except.ok (l.sum / l.length)

/-- Scipy's `trim_mean(l, 0.25)`: sort, cut the lowest and highest quarter,
mean of the rest (0 as the degenerate empty-slice value, which cannot be
reached after `statsMedian` has succeeded). -/
def trimMean (l : List ℚ) : ℚ :=
  let s := sortL l
  let n := l.length
  let lower := n / 4
  let upper := n - lower
  let sliced := (s.drop lower).take (upper - lower)
  if sliced.length = 0 then 0 else sliced.sum / sliced.length

/-- Python's `statistics.stdev` guard: raises with fewer than two data
points, the spec's `InsufficientDataError`.  The returned value is the
sample variance; the source takes its square root and only logs it. -/
def statsStdev (l : List ℚ) : Except PipeError ℚ :=
  if l.length < 2 then Except.error .insufficientData
  else
    let m := l.sum / l.length
    Except.ok ((l.map (fun x => (x - m) ^ 2)).sum / ((l.length : ℚ) - 1))

/-- Result of an ordinary least-squares line fit, as in
`scipy.stats.linregress`. -/
structure RegressionResult where
  slope : ℚ
  intercept : ℚ
  deriving DecidableEq, Repr

/-- Scipy's `linregress` on two equal-length series: slope and intercept of
the least-squares line, failing on degenerate inputs. -/
def linregress (xs ys : List ℚ) : Except PipeError RegressionResult :=
  if xs.length = 0 then Except.error .insufficientData
  else
    let n : ℚ := xs.length
    let sx := xs.sum
    let sy := ys.sum
    let sxy := ((xs.zip ys).map (fun p => p.1 * p.2)).sum
    let sxx := (xs.map (fun x => x * x)).sum
    let den := n * sxx - sx * sx
    if den = 0 then Except.error .degenerate
    else
      let slope := (n * sxy - sx * sy) / den
      Except.ok ⟨slope, (sy - slope * sx) / n⟩

/-- State of the two-dimensional constant-velocity Kalman filter of
`filterpy` as configured in the source: state vector `(x0, x1)` and
covariance matrix entries `p00 p01 / p10 p11`. -/
structure Kalman2 where
  x0 : ℚ
  x1 : ℚ
  p00 : ℚ
  p01 : ℚ
  p10 : ℚ
  p11 : ℚ
  deriving DecidableEq, Repr

/-- Initial filter state of the source: `x = [[0], [accel_v[0]]]` and
`P = 1000 * I`. -/
def kalmanInit (v0 : ℚ) : Kalman2 :=
  ⟨0, v0, 1000, 0, 0, 1000⟩

/-- Kalman predict step with the source's transition matrix
`F = [[1, 1], [0, 1]]` and process noise
`Q = Q_discrete_white_noise(dim = 2, dt = 0.1, var = 0.1)`. -/
def kalmanPredict (k : Kalman2) : Kalman2 :=
  { x0 := k.x0 + k.x1
    x1 := k.x1
    p00 := k.p00 + k.p01 + k.p10 + k.p11 + 1 / 400000
    p01 := k.p01 + k.p11 + 1 / 20000
    p10 := k.p10 + k.p11 + 1 / 20000
    p11 := k.p11 + 1 / 1000 }

/-- Kalman update step with the source's measurement function
`H = [1, 0]` and measurement noise `R = 5`. -/
def kalmanUpdate (k : Kalman2) (z : ℚ) : Kalman2 :=
  let s := k.p00 + 5
  let k0 := k.p00 / s
  let k1 := k.p10 / s
  let y := z - k.x0
  { x0 := k.x0 + k0 * y
    x1 := k.x1 + k1 * y
    p00 := (1 - k0) * k.p00
    p01 := (1 - k0) * k.p01
    p10 := k.p10 - k1 * k.p00
    p11 := k.p11 - k1 * k.p01 }

/-- Tail of the smoothing loop: predict, update with the next raw velocity,
and record the filtered position component. -/
def kalmanSmoothAux (k : Kalman2) : List ℚ → List ℚ
  | [] => []
  | v :: vs =>
    let k' := kalmanUpdate (kalmanPredict k) v
    k'.x0 :: kalmanSmoothAux k' vs

/-- Smoothed velocity series of `visualize_observed_velocities`:
`smoothed_v = [accel_v[0]]` followed by one filtered value per remaining
raw sample. -/
def kalmanSmooth : List ℚ → List ℚ
  | [] => []
  | v0 :: vs => v0 :: kalmanSmoothAux (kalmanInit v0) vs

/-- All derived outputs of `visualize_observed_velocities` that are not pure
plotting. -/
structure VizOutput where
  median : ℚ
  mean : ℚ
  trimmedMean : ℚ
  variance : ℚ
  avgAcceleration : ℚ
  smoothed : List ℚ
  rawFit : RegressionResult
  smoothFit : RegressionResult
  deriving DecidableEq, Repr

/-- Velocity Estimator reporting stage, `visualize_observed_velocities`:
distribution statistics first (raising the spec's `InsufficientDataError`
on fewer than two samples), then the crude average acceleration
`(accel_v[-1] - accel_v[1]) / (accel_t[-1] - accel_t[1])`, the Kalman
smoothing pass, and the two linear regressions.  Plot rendering is
external and omitted. -/
def visualizeObservedVelocities (accel_t accel_v : List ℚ) :
    Except PipeError VizOutput :=
  match statsMedian accel_v with
  | .error e => .error e
  | .ok med =>
    match statsMean accel_v with
    | .error e => .error e
    | .ok mn =>
      let tm := trimMean accel_v
      match statsStdev accel_v with
      | .error e => .error e
      | .ok sd =>
        match accel_v.getLast?, accel_v.get? 1, accel_t.getLast?, accel_t.get? 1 with
        | some vl, some v1, some tl, some t1 =>
          if tl - t1 = 0 then .error .degenerate
          else
            let acc := (vl - v1) / (tl - t1)
            let smoothed := kalmanSmooth accel_v
            match linregress accel_t accel_v with
            | .error e => .error e
            | .ok raw =>
              match linregress accel_t smoothed with
              | .error e => .error e
              | .ok sm => .ok ⟨med, mn, tm, sd, acc, smoothed, raw, sm⟩
        | _, _, _, _ => .error .indexError

/-- Loop state of `compute_acceleration_by_matches`: the previously retained
reference time, reference tick and target time. -/
structure AccState where
  lastUTime : ℚ
  lastUTick : ℤ
  lastATime : ℚ
  deriving DecidableEq, Repr

/-- One iteration of the sampling loop of `compute_acceleration_by_matches`
over an entry `(unaccel_tick, (unaccel_time, accel_time))`: skip the tick
entirely (`continue`) when it is less than `sample_interval` ticks past the
last retained tick; otherwise emit the velocity sample
`(accel_time / 60, actual_feet_delta / (accel_time - last_accel_time) * 60)`
only when both elapsed times are strictly positive, and update the
retained state either way.  The `last_foot` bookkeeping and the overall
feet-per-minute quantities of the source only feed log messages and are
omitted. -/
def accelStep (sampleInterval : ℤ) (s : AccState) (e : ℤ × ℚ × ℚ) :
    AccState × Option (ℚ × ℚ) :=
  if e.1 - s.lastUTick < sampleInterval then (s, none)
  else
    let feetDelta : ℚ := ((e.1 : ℚ) - (s.lastUTick : ℚ)) / 3600
    let uTime := e.2.1
    let aTime := e.2.2
    let out :=
      if aTime > s.lastATime ∧ uTime > s.lastUTime then
        some (aTime / 60, feetDelta / (aTime - s.lastATime) * 60)
      else none
    (⟨uTime, e.1, aTime⟩, out)

/-- Folding `accelStep` over the sorted correspondence entries, collecting
the emitted `accel_t` and `accel_v` series. -/
def accelSamplesAux (sampleInterval : ℤ) (s : AccState) :
    List (ℤ × ℚ × ℚ) → List ℚ × List ℚ
  | [] => ([], [])
  | e :: es =>
    let step := accelStep sampleInterval s e
    let rest := accelSamplesAux sampleInterval step.1 es
    match step.2 with
    | some tv => (tv.1 :: rest.1, tv.2 :: rest.2)
    | none => rest

/-- Velocity Estimator, `compute_acceleration_by_matches`: iterate the
correspondence keys in sorted order, read the first pair recorded at each
tick, sample with `accelStep` (interval 3600 ticks per foot, or 1), and
hand the two series to `visualize_observed_velocities`. -/
def computeAccelerationByMatches (perFoot : Bool) (corr : Corr) :
    Except PipeError VizOutput :=
  let sampleInterval : ℤ := if perFoot then 3600 else 1
  let ticks := sortL (corr.map Prod.fst)
  let entries := ticks.map (fun k => (k, (corrLookup corr k).headD (0, 0)))
  let tv := accelSamplesAux sampleInterval ⟨0, 0, 0⟩ entries
  visualizeObservedVelocities tv.1 tv.2

/-- Discrete tail of the pipeline: build the correspondence from the two
aligned sequences and the event lists, then derive the velocity
statistics; any walk error aborts the run before any statistics are
produced. -/
def discreteVelocityStats (uSeq aSeq : List ℕ) (uEv aEv : List Event)
    (perFoot : Bool) : Except PipeError VizOutput :=
  match walkAligned uEv aEv uSeq aSeq ⟨0, 0, []⟩ with
  | .error e => .error e
  | .ok corr => computeAccelerationByMatches perFoot corr

/-- Modelled from the spec: accumulated-cost value of the first row of the
dynamic-time-warp cost matrix (`librosa.sequence.dtw` is not part of this
repository).  `c i j` is the local distance between reference column `i`
and target column `j`. -/
def dtwRow0 (c : ℕ → ℕ → ℚ) : ℕ → ℚ
  | 0 => c 0 0
  | j + 1 => c 0 (j + 1) + dtwRow0 c j

/-- Modelled from the spec: accumulated cost of row `i + 1` of the DTW cost
matrix, where `prev` is row `i`, with the standard transition set
(+1,+1), (+1,0), (0,+1). -/
def dtwCostRow (c : ℕ → ℕ → ℚ) (i : ℕ) (prev : ℕ → ℚ) : ℕ → ℚ
  | 0 => c (i + 1) 0 + prev 0
  | j + 1 =>
    c (i + 1) (j + 1) +
      min (prev j) (min (prev (j + 1)) (dtwCostRow c i prev j))

/-- Modelled from the spec: the accumulated DTW cost matrix `D`. -/
def dtwCost (c : ℕ → ℕ → ℚ) : ℕ → ℕ → ℚ
  | 0 => dtwRow0 c
  | i + 1 => dtwCostRow c i (dtwCost c i)

/-- Modelled from the spec: traceback along the first row of the cost matrix
(only (0,+1) steps remain available). -/
def dtwTracebackRow0 : ℕ → List (ℕ × ℕ)
  | 0 => [(0, 0)]
  | j + 1 => (0, j + 1) :: dtwTracebackRow0 j

/-- Modelled from the spec: traceback from cell `(i + 1, j)`, where `prevTb`
is the traceback from row `i`.  At each interior cell the step moves to the
predecessor of least accumulated cost, diagonal preferred, and the
traceback runs until it reaches the origin. -/
def dtwTracebackRow (c : ℕ → ℕ → ℚ) (i : ℕ) (prevTb : ℕ → List (ℕ × ℕ)) :
    ℕ → List (ℕ × ℕ)
  | 0 => (i + 1, 0) :: prevTb 0
  | j + 1 =>
    let dDiag := dtwCost c i j
    let dUp := dtwCost c i (j + 1)
    let dLeft := dtwCost c (i + 1) j
    if dDiag ≤ dUp ∧ dDiag ≤ dLeft then (i + 1, j + 1) :: prevTb j
    else if dUp ≤ dLeft then (i + 1, j + 1) :: prevTb (j + 1)
    else (i + 1, j + 1) :: dtwTracebackRow c i prevTb j

/-- Modelled from the spec: full DTW traceback from cell `(i, j)` down to
the origin, in the reversed order `librosa.sequence.dtw` returns it. -/
def dtwTraceback (c : ℕ → ℕ → ℚ) : ℕ → ℕ → List (ℕ × ℕ)
  | 0 => dtwTracebackRow0
  | i + 1 => dtwTracebackRow c i (dtwTraceback c i)

/-- Modelled from the spec: the WarpPath of the Continuous Time-Warp Aligner
for feature matrices of `m` and `n` columns, in forward time order from the
origin to the final cell. -/
def warpPath (c : ℕ → ℕ → ℚ) (m n : ℕ) : List (ℕ × ℕ) :=
  (dtwTraceback c (m - 1) (n - 1)).reverse

/-- Python's `int()` on a non-negative float: truncation toward zero, used
for `unaccel_tick = int(unaccel_time * unaccel_tps)`. -/
def pyInt (q : ℚ) : ℤ := Int.tdiv q.num q.den

/-- Loop state of the warp-path correspondence loop in `main`: the stride
pair of the previous step and the accumulated dict. -/
structure WarpState where
  lastU : ℕ
  lastA : ℕ
  corr : Corr
  deriving DecidableEq, Repr

/-- One iteration of the warp-path correspondence loop of `main` over a
stride pair: compute both times from the bin durations and the reference
tick from `unaccel_tps`, record the pair in the dict only when both strides
differ from the previous step's strides, and always remember the current
strides. -/
def warpStep (ubin abin tps : ℚ) (s : WarpState) (p : ℕ × ℕ) : WarpState :=
  let uTime := (p.1 : ℚ) * ubin
  let aTime := (p.2 : ℚ) * abin
  let tick := pyInt (uTime * tps)
  if p.1 ≠ s.lastU ∧ p.2 ≠ s.lastA then
    ⟨p.1, p.2, corrInsert s.corr tick (uTime, aTime)⟩
  else ⟨p.1, p.2, s.corr⟩

/-- The warp-path correspondence of `main`: the loop
`for x in range(wp.shape[0] - 1, 0, -1)` walks the raw (reversed) warp path
from its last row up to row 1, that is, the dropped-head path in forward
time order, starting from strides `(0, 0)`. -/
def buildWarpCorrespondence (ubin abin tps : ℚ) (wp : List (ℕ × ℕ)) : Corr :=
  (((wp.drop 1).reverse).foldl (warpStep ubin abin tps) ⟨0, 0, []⟩).corr

/-- The encoding never produces the gap sentinel: `chr(note)` with the dash
replaced can never be the dash itself. -/
lemma encodeChar_ne_gapCode (n : ℕ) : encodeChar n ≠ gapCode := by
  simp only [encodeChar, gapCode]
  split <;> omega

/-- C9: the category-to-character encoding `chr(category)` with the dash
replaced by the tilde is not injective, and decoding is not its inverse on
the full category range: categories 45 and 126 both encode to the tilde,
decoding maps the tilde back to 45, and `decode (encode c) = c` holds for
every category `c` in 0..127 except `c = 126`, which decodes to 45. -/
theorem encode_decode_conflation :
    encodeChar 45 = encodeChar 126 ∧ (45 : ℕ) ≠ 126 ∧ decodeChar 126 = 45 ∧
    ∀ c : Fin 128,
      decodeChar (encodeChar c.val) = if c.val = 126 then 45 else c.val := by
  refine ⟨rfl, by decide, rfl, ?_⟩
  decide

/-- C5 counterexample: an input pair of category sequences in which the gap
sentinel 45 occurs as a real category value is not refused; the discrete
alignment stage runs and returns an alignment instead of signalling an
input-encoding error. -/
theorem gap_sentinel_input_not_refused :
    gapCode ∈ ([45] : List ℕ) ∧
    discreteAlignStage [45] [45] = Except.ok ([126], [126]) := by
  exact ⟨by decide, rfl⟩

/-- C5 amended: the refusal check tests the encoded character sequences for
the gap character, and since encoding replaces character code 45 with 126
the check can never fire: for every pair of input category sequences the
stage returns an alignment of the encoded sequences and never signals an
input-encoding error. -/
theorem discrete_align_stage_never_refuses :
    ∀ uNotes aNotes : List ℕ,
      discreteAlignStage uNotes aNotes =
        Except.ok (nwAlign (encodeNotes uNotes) (encodeNotes aNotes)) := by
  intro uNotes aNotes
  have h : ∀ l : List ℕ, gapCode ∉ encodeNotes l := by
    intro l hmem
    simp only [encodeNotes, List.mem_map] at hmem
    obtain ⟨x, _, hx⟩ := hmem
    exact encodeChar_ne_gapCode x hx
  simp [discreteAlignStage, h]

/-- C8: the correspondence built from a cached (persisted and reloaded)
alignment equals the correspondence built from a freshly computed alignment
of the same inputs: the cache-hit path and the recompute path are
interchangeable. -/
theorem cached_alignment_roundtrip :
    ∀ (uChars aChars : List ℕ) (uEv aEv : List Event),
      (let cachedA := loadOrComputeAlignment
        (persistAlignment (nwAlign uChars aChars)) uChars aChars
      let freshA := loadOrComputeAlignment none uChars aChars
      walkAligned uEv aEv cachedA.1 cachedA.2 ⟨0, 0, []⟩ =
        walkAligned uEv aEv freshA.1 freshA.2 ⟨0, 0, []⟩) := by
  intro uChars aChars uEv aEv
  rfl

/-- C7: when converting a warp path into a correspondence, an entry is
recorded for a path step only when the step changes both the reference
stride and the target stride relative to the previous step; a step that
repeats either stride leaves the correspondence unchanged. -/
theorem warp_step_records_only_double_advance :
    ∀ (ubin abin tps : ℚ) (s : WarpState) (p : ℕ × ℕ),
      ((p.1 = s.lastU ∨ p.2 = s.lastA) →
        (warpStep ubin abin tps s p).corr = s.corr) ∧
      (p.1 ≠ s.lastU → p.2 ≠ s.lastA →
        (warpStep ubin abin tps s p).corr =
          corrInsert s.corr (pyInt ((p.1 : ℚ) * ubin * tps))
            ((p.1 : ℚ) * ubin, (p.2 : ℚ) * abin)) := by
  intro ubin abin tps s p
  constructor
  · intro h
    simp only [warpStep]
    rw [if_neg (by tauto)]
  · intro h1 h2
    simp only [warpStep]
    rw [if_pos ⟨h1, h2⟩]

/-- Witness for C7 at concrete inputs: a step repeating the reference
stride records nothing, and a step advancing both strides records one
entry. -/
theorem warp_step_records_only_double_advance_witness :
    ((0 : ℕ) = (0 : ℕ) ∨ (5 : ℕ) = (0 : ℕ)) ∧
    (warpStep 1 1 1 ⟨0, 0, []⟩ (0, 5)).corr = [] ∧
    (warpStep 1 1 1 ⟨0, 0, []⟩ (1, 1)).corr =
      corrInsert [] (pyInt (((1 : ℕ) : ℚ) * 1 * 1))
        (((1 : ℕ) : ℚ) * 1, ((1 : ℕ) : ℚ) * 1) :=
  ⟨Or.inl rfl,
   (warp_step_records_only_double_advance 1 1 1 ⟨0, 0, []⟩ (0, 5)).1
     (Or.inl rfl),
   (warp_step_records_only_double_advance 1 1 1 ⟨0, 0, []⟩ (1, 1)).2
     (by decide) (by decide)⟩

/-- C6: the sampling loop retains a reference tick only if it is at least
`sample_interval` ticks past the last retained tick (otherwise the state is
untouched and nothing is emitted), and at a retained tick it emits a
velocity sample only if both elapsed times since the previous retained
sample are strictly positive; a retained tick with a non-positive elapsed
time updates the state but produces no sample. -/
theorem accel_step_sampling_guards :
    ∀ (sampleInterval : ℤ) (s : AccState) (e : ℤ × ℚ × ℚ),
      (e.1 - s.lastUTick < sampleInterval →
        accelStep sampleInterval s e = (s, none)) ∧
      (sampleInterval ≤ e.1 - s.lastUTick →
        ¬(e.2.2 > s.lastATime ∧ e.2.1 > s.lastUTime) →
        accelStep sampleInterval s e = (⟨e.2.1, e.1, e.2.2⟩, none)) ∧
      (sampleInterval ≤ e.1 - s.lastUTick →
        e.2.2 > s.lastATime → e.2.1 > s.lastUTime →
        accelStep sampleInterval s e =
          (⟨e.2.1, e.1, e.2.2⟩,
            some (e.2.2 / 60,
              ((e.1 : ℚ) - (s.lastUTick : ℚ)) / 3600 /
                (e.2.2 - s.lastATime) * 60))) := by
  intro sampleInterval s e
  refine ⟨?_, ?_, ?_⟩
  · intro h
    simp only [accelStep]
    rw [if_pos h]
  · intro h1 h2
    simp only [accelStep]
    rw [if_neg (by omega), if_neg h2]
  · intro h1 h2 h3
    simp only [accelStep]
    rw [if_neg (by omega), if_pos ⟨h2, h3⟩]

/-- Witness for C6 at concrete inputs: a tick 100 past the last sample is
skipped under interval 3600; a retained tick with non-positive elapsed
target time emits nothing; a retained tick with positive elapsed times
emits a sample. -/
theorem accel_step_sampling_guards_witness :
    ((100 : ℤ) - (0 : ℤ) < 3600 ∧
      accelStep 3600 ⟨0, 0, 0⟩ (100, 1, 1) = (⟨0, 0, 0⟩, none)) ∧
    accelStep 3600 ⟨0, 0, 0⟩ (4000, 1, -1) = (⟨1, 4000, -1⟩, none) ∧
    accelStep 3600 ⟨0, 0, 0⟩ (4000, 2, 3) =
      (⟨2, 4000, 3⟩,
        some ((3 : ℚ) / 60,
          (((4000 : ℤ) : ℚ) - ((0 : ℤ) : ℚ)) / 3600 / ((3 : ℚ) - 0) * 60)) :=
  ⟨⟨by decide,
    (accel_step_sampling_guards 3600 ⟨0, 0, 0⟩ (100, 1, 1)).1 (by decide)⟩,
   (accel_step_sampling_guards 3600 ⟨0, 0, 0⟩ (4000, 1, -1)).2.1 (by decide)
     (by norm_num),
   (accel_step_sampling_guards 3600 ⟨0, 0, 0⟩ (4000, 2, 3)).2.2 (by decide)
     (by norm_num) (by norm_num)⟩

/-- C1: a velocity-sample series with fewer than two samples makes the
reporting stage fail with the insufficient-data error before any filtering
or regression step runs; no regression output is produced and no other
error is raised. -/
theorem insufficient_samples_reported :
    ∀ (accel_t accel_v : List ℚ), accel_v.length < 2 →
      visualizeObservedVelocities accel_t accel_v =
        Except.error PipeError.insufficientData := by
  intro ts vs h
  match vs with
  | [] => simp [visualizeObservedVelocities, statsMedian]
  | [v] =>
    simp [visualizeObservedVelocities, statsMedian, statsMean, statsStdev,
      sortL, insertSorted]
  | v1 :: v2 :: rest => simp at h; omega

/-- Witness for C1: the singleton series is reported as insufficient
data. -/
theorem insufficient_samples_reported_witness :
    ([(5 : ℚ)] : List ℚ).length < 2 ∧
    visualizeObservedVelocities [1] [5] =
      Except.error PipeError.insufficientData :=
  ⟨by decide, insufficient_samples_reported [1] [5] (by decide)⟩

/-- C2: at an alignment position where both sides are non-gap, the walk
validates the decoded category against the underlying event's category at
the current cursor in both sequences; any mismatch aborts the run at once
with the consistency error, and a walk that aborts this way yields no
correspondence and no downstream velocity statistics. -/
theorem alignment_consistency_abort :
    ∀ (uEv aEv : List Event) (u a : ℕ) (us as : List ℕ) (s : WalkState)
      (ue ae : Event),
      uEv.get? s.uc = some ue → aEv.get? s.ac = some ae →
      u ≠ gapCode → a ≠ gapCode →
      (decodeChar u ≠ ue.category ∨ decodeChar a ≠ ae.category) →
      walkAligned uEv aEv (u :: us) (a :: as) s =
        Except.error PipeError.consistency ∧
      ∀ (uSeq aSeq : List ℕ) (perFoot : Bool),
        walkAligned uEv aEv uSeq aSeq ⟨0, 0, []⟩ =
          Except.error PipeError.consistency →
        discreteVelocityStats uSeq aSeq uEv aEv perFoot =
          Except.error PipeError.consistency := by
  intro uEv aEv u a us as s ue ae hue hae hgu hga hmis
  constructor
  · have h1 : s.uc < uEv.length := by
      by_contra hc
      rw [List.get?_eq_none.mpr (by omega)] at hue
      exact Option.noConfusion hue
    have h2 : s.ac < aEv.length := by
      by_contra hc
      rw [List.get?_eq_none.mpr (by omega)] at hae
      exact Option.noConfusion hae
    have hue' : uEv.get ⟨s.uc, h1⟩ = ue := by
      have := List.get?_eq_get h1
      rw [hue] at this
      exact (Option.some.injEq _ _ ▸ this.symm)
    have hae' : aEv.get ⟨s.ac, h2⟩ = ae := by
      have := List.get?_eq_get h2
      rw [hae] at this
      exact (Option.some.injEq _ _ ▸ this.symm)
    simp only [walkAligned]
    rw [if_neg (by omega)]
    rw [List.get?_eq_get h1, List.get?_eq_get h2]
    dsimp only
    rw [if_neg (by tauto)]
    rw [hue', hae']
    rcases hmis with hm | hm
    · rw [if_pos hm]
    · by_cases hc1 : decodeChar u ≠ ue.category
      · rw [if_pos hc1]
      · rw [if_neg hc1, if_pos hm]
  · intro uSeq aSeq perFoot h
    simp only [discreteVelocityStats]
    rw [h]

/-- Witness for C2: a one-position alignment whose target category decodes
to 61 against an event of category 62 aborts with the consistency error,
and the full discrete pipeline on those inputs produces no statistics,
only the same error. -/
theorem alignment_consistency_abort_witness :
    (60 : ℕ) ≠ gapCode ∧
    walkAligned [⟨60, 0, 0⟩] [⟨62, 0, 1⟩] [60] [61] ⟨0, 0, []⟩ =
      Except.error PipeError.consistency ∧
    discreteVelocityStats [60] [61] [⟨60, 0, 0⟩] [⟨62, 0, 1⟩] true =
      Except.error PipeError.consistency := by
  have h := alignment_consistency_abort [⟨60, 0, 0⟩] [⟨62, 0, 1⟩] 60 61 [] []
    ⟨0, 0, []⟩ ⟨60, 0, 0⟩ ⟨62, 0, 1⟩ (by decide) (by decide) (by decide)
    (by decide) (Or.inr (by decide))
  exact ⟨by decide, h.1, h.2 [60] [61] true h.1⟩

/-- C10: the correspondence walk never indexes either event list out of
range: for every pair of aligned sequences (including those whose non-gap
symbol counts exceed the event list lengths) and every state, the walk
never fails with an event-index error, because each iteration first breaks
out of the loop as soon as either cursor has reached the end of its event
list. -/
theorem walk_event_indexing_safe :
    ∀ (uEv aEv : List Event) (uSeq aSeq : List ℕ) (s : WalkState),
      walkAligned uEv aEv uSeq aSeq s ≠ Except.error PipeError.eventIndex ∧
      (∀ (u a : ℕ) (us as : List ℕ),
        s.uc ≥ uEv.length ∨ s.ac ≥ aEv.length →
        walkAligned uEv aEv (u :: us) (a :: as) s = Except.ok s.corr) := by
  intro uEv aEv uSeq aSeq s
  constructor
  · induction uSeq generalizing aSeq s with
    | nil => simp [walkAligned]
    | cons u us ih =>
      cases aSeq with
      | nil => simp [walkAligned]
      | cons a as =>
        simp only [walkAligned]
        by_cases hg : s.uc ≥ uEv.length ∨ s.ac ≥ aEv.length
        · rw [if_pos hg]; simp
        · rw [if_neg hg]
          have h1 : s.uc < uEv.length := by omega
          have h2 : s.ac < aEv.length := by omega
          rw [List.get?_eq_get h1, List.get?_eq_get h2]
          dsimp only
          by_cases hgap : u = gapCode ∨ a = gapCode
          · rw [if_pos hgap]; exact ih _ _
          · rw [if_neg hgap]
            by_cases hc1 : decodeChar u ≠ (uEv.get ⟨s.uc, h1⟩).category
            · rw [if_pos hc1]; simp
            · rw [if_neg hc1]
              by_cases hc2 : decodeChar a ≠ (aEv.get ⟨s.ac, h2⟩).category
              · rw [if_pos hc2]; simp
              · rw [if_neg hc2]
                by_cases hc3 : decodeChar a ≠ decodeChar u
                · rw [if_pos hc3]; simp
                · rw [if_neg hc3]; exact ih _ _
  · intro u a us as h
    simp only [walkAligned]
    rw [if_pos h]

/-- Witness for C10: a non-empty alignment over empty event lists stops at
once with the state's correspondence and, in particular, raises no
event-index error. -/
theorem walk_event_indexing_safe_witness :
    ((0 : ℕ) ≥ ([] : List Event).length ∨ (0 : ℕ) ≥ ([] : List Event).length) ∧
    walkAligned [] [] [1] [1] ⟨0, 0, []⟩ = Except.ok [] ∧
    walkAligned [] [] [1] [1] ⟨0, 0, []⟩ ≠ Except.error PipeError.eventIndex :=
  ⟨Or.inl (by decide),
   (walk_event_indexing_safe [] [] [1] [1] ⟨0, 0, []⟩).2 1 1 [] []
     (Or.inl (by decide)),
   (walk_event_indexing_safe [] [] [1] [1] ⟨0, 0, []⟩).1⟩

/-- Both sides of a Needleman-Wunsch row alignment have equal length
whenever the aligner for the shorter prefix does. -/
lemma nwAlignRow_length (a : ℕ) (gscore : List ℕ → ℤ)
    (galign : List ℕ → List ℕ × List ℕ)
    (hg : ∀ bs, (galign bs).1.length = (galign bs).2.length) :
    ∀ bs, (nwAlignRow a gscore galign bs).1.length =
      (nwAlignRow a gscore galign bs).2.length := by
  intro bs
  induction bs with
  | nil => simp [nwAlignRow, hg]
  | cons b bs ih =>
    simp only [nwAlignRow]
    split_ifs <;> simp [hg, ih]

lemma nwAlign_length : ∀ A B : List ℕ,
    (nwAlign A B).1.length = (nwAlign A B).2.length := by
  intro A
  induction A with
  | nil => intro B; simp [nwAlign]
  | cons a as ih => intro B; exact nwAlignRow_length a _ _ ih B

lemma nwAlignRow_noDoubleGap (a : ℕ) (ha : a ≠ gapCode)
    (gscore : List ℕ → ℤ) (galign : List ℕ → List ℕ × List ℕ)
    (hg : ∀ bs, gapCode ∉ bs → noDoubleGap (galign bs).1 (galign bs).2) :
    ∀ bs, gapCode ∉ bs →
      noDoubleGap (nwAlignRow a gscore galign bs).1
        (nwAlignRow a gscore galign bs).2 := by
  intro bs
  induction bs with
  | nil =>
    intro _
    intro p hp
    simp only [nwAlignRow, List.zip_cons_cons, List.mem_cons] at hp
    rcases hp with rfl | hp
    · exact fun hc => ha hc.1
    · exact hg [] (by simp) p hp
  | cons b bs ih =>
    intro hb
    have hbne : b ≠ gapCode := fun hc => hb (by simp [hc])
    have hbs : gapCode ∉ bs := fun hc => hb (List.mem_cons_of_mem _ hc)
    intro p hp
    simp only [nwAlignRow] at hp
    split_ifs at hp
    · simp only [List.zip_cons_cons, List.mem_cons] at hp
      rcases hp with rfl | hp
      · exact fun hc => ha hc.1
      · exact hg bs hbs p hp
    · simp only [List.zip_cons_cons, List.mem_cons] at hp
      rcases hp with rfl | hp
      · exact fun hc => hbne hc.2
      · exact ih hbs p hp
    · simp only [List.zip_cons_cons, List.mem_cons] at hp
      rcases hp with rfl | hp
      · exact fun hc => ha hc.1
      · exact hg (b :: bs) hb p hp

lemma zip_const_gap (B : List ℕ) (hB : gapCode ∉ B) :
    noDoubleGap (B.map (fun _ => gapCode)) B := by
  induction B with
  | nil => intro p hp; simp at hp
  | cons b bs ih =>
    have hbne : b ≠ gapCode := fun hc => hB (by simp [hc])
    have hbs : gapCode ∉ bs := fun hc => hB (List.mem_cons_of_mem _ hc)
    intro p hp
    simp only [List.map_cons, List.zip_cons_cons, List.mem_cons] at hp
    rcases hp with rfl | hp
    · exact fun hc => hbne hc.2
    · exact ih hbs p hp

lemma nwAlign_noDoubleGap : ∀ A B : List ℕ, gapCode ∉ A → gapCode ∉ B →
    noDoubleGap (nwAlign A B).1 (nwAlign A B).2 := by
  intro A
  induction A with
  | nil => intro B _ hB; exact zip_const_gap B hB
  | cons a as ih =>
    intro B hA hB
    have ha : a ≠ gapCode := fun hc => hA (by simp [hc])
    have has : gapCode ∉ as := fun hc => hA (List.mem_cons_of_mem _ hc)
    exact nwAlignRow_noDoubleGap a ha _ _ (fun bs hbs => ih bs has hbs) B hB

/-- C3: for every pair of input category sequences (which, downstream of
the encoding, never contain the gap sentinel), the alignment produced by
the discrete sequence aligner consists of two sequences of equal length,
and at no position are both entries the gap symbol. -/
theorem discrete_alignment_invariant :
    ∀ A B : List ℕ, gapCode ∉ A → gapCode ∉ B →
      (nwAlign A B).1.length = (nwAlign A B).2.length ∧
      noDoubleGap (nwAlign A B).1 (nwAlign A B).2 :=
  fun A B hA hB => ⟨nwAlign_length A B, nwAlign_noDoubleGap A B hA hB⟩

/-- Witness for C3 at concrete gap-free inputs. -/
theorem discrete_alignment_invariant_witness :
    gapCode ∉ ([65, 66] : List ℕ) ∧ gapCode ∉ ([66] : List ℕ) ∧
    ((nwAlign [65, 66] [66]).1.length = (nwAlign [65, 66] [66]).2.length ∧
      noDoubleGap (nwAlign [65, 66] [66]).1 (nwAlign [65, 66] [66]).2) :=
  ⟨by decide, by decide,
   discrete_alignment_invariant [65, 66] [66] (by decide) (by decide)⟩

/-- Shape facts for the traceback along the first row: it starts at
`(0, j)`, ends at the origin, and both coordinates are non-increasing. -/
lemma dtwTracebackRow0_facts :
    ∀ j, (dtwTracebackRow0 j).head? = some (0, j) ∧
      (dtwTracebackRow0 j).getLast? = some (0, 0) ∧
      List.Chain' (fun p q : ℕ × ℕ => q.1 ≤ p.1 ∧ q.2 ≤ p.2)
        (dtwTracebackRow0 j) := by
  intro j
  induction j with
  | zero => refine ⟨rfl, rfl, ?_⟩; simp [dtwTracebackRow0]
  | succ j ih =>
    obtain ⟨ihh, ihl, ihc⟩ := ih
    refine ⟨rfl, ?_, ?_⟩
    · rw [dtwTracebackRow0]
      cases hrow : dtwTracebackRow0 j with
      | nil => rw [hrow] at ihh; exact Option.noConfusion ihh
      | cons x xs => rw [hrow] at ihl; rw [List.getLast?_cons_cons]; exact ihl
    · rw [dtwTracebackRow0, List.chain'_cons']
      refine ⟨?_, ihc⟩
      intro y hy
      rw [ihh] at hy
      cases hy
      exact ⟨Nat.le_refl 0, Nat.le_succ j⟩

/-- Shape facts for the traceback from row `i + 1`, given the same facts
for every traceback starting in row `i`. -/
lemma dtwTracebackRow_facts (c : ℕ → ℕ → ℚ) (i : ℕ)
    (prevTb : ℕ → List (ℕ × ℕ))
    (hprev : ∀ j, (prevTb j).head? = some (i, j) ∧
      (prevTb j).getLast? = some (0, 0) ∧
      List.Chain' (fun p q : ℕ × ℕ => q.1 ≤ p.1 ∧ q.2 ≤ p.2) (prevTb j)) :
    ∀ j, (dtwTracebackRow c i prevTb j).head? = some (i + 1, j) ∧
      (dtwTracebackRow c i prevTb j).getLast? = some (0, 0) ∧
      List.Chain' (fun p q : ℕ × ℕ => q.1 ≤ p.1 ∧ q.2 ≤ p.2)
        (dtwTracebackRow c i prevTb j) := by
  intro j
  induction j with
  | zero =>
    obtain ⟨hh, hl, hc⟩ := hprev 0
    refine ⟨rfl, ?_, ?_⟩
    · rw [dtwTracebackRow]
      cases hrow : prevTb 0 with
      | nil => rw [hrow] at hh; exact Option.noConfusion hh
      | cons x xs => rw [hrow] at hl; rw [List.getLast?_cons_cons]; exact hl
    · rw [dtwTracebackRow, List.chain'_cons']
      refine ⟨?_, hc⟩
      intro y hy
      rw [hh] at hy
      cases hy
      exact ⟨Nat.le_succ i, Nat.le_refl 0⟩
  | succ j ih =>
    obtain ⟨ihh, ihl, ihc⟩ := ih
    constructor
    · rw [dtwTracebackRow]
      split_ifs <;> rfl
    constructor
    · rw [dtwTracebackRow]
      split_ifs
      · obtain ⟨hh, hl, _⟩ := hprev j
        cases hrow : prevTb j with
        | nil => rw [hrow] at hh; exact Option.noConfusion hh
        | cons x xs => rw [hrow] at hl; rw [List.getLast?_cons_cons]; exact hl
      · obtain ⟨hh, hl, _⟩ := hprev (j + 1)
        cases hrow : prevTb (j + 1) with
        | nil => rw [hrow] at hh; exact Option.noConfusion hh
        | cons x xs => rw [hrow] at hl; rw [List.getLast?_cons_cons]; exact hl
      · cases hrow : dtwTracebackRow c i prevTb j with
        | nil => rw [hrow] at ihh; exact Option.noConfusion ihh
        | cons x xs => rw [hrow] at ihl; rw [List.getLast?_cons_cons]; exact ihl
    · rw [dtwTracebackRow]
      split_ifs
      · obtain ⟨hh, _, hc⟩ := hprev j
        rw [List.chain'_cons']
        refine ⟨?_, hc⟩
        intro y hy
        rw [hh] at hy
        cases hy
        exact ⟨Nat.le_succ i, Nat.le_succ j⟩
      · obtain ⟨hh, _, hc⟩ := hprev (j + 1)
        rw [List.chain'_cons']
        refine ⟨?_, hc⟩
        intro y hy
        rw [hh] at hy
        cases hy
        exact ⟨Nat.le_succ i, Nat.le_refl (j + 1)⟩
      · rw [List.chain'_cons']
        refine ⟨?_, ihc⟩
        intro y hy
        rw [ihh] at hy
        cases hy
        exact ⟨Nat.le_refl (i + 1), Nat.le_succ j⟩

/-- Shape facts for the full traceback: it starts at `(i, j)`, ends at the
origin, and both coordinates are non-increasing along the list. -/
lemma dtwTraceback_facts (c : ℕ → ℕ → ℚ) :
    ∀ i j, (dtwTraceback c i j).head? = some (i, j) ∧
      (dtwTraceback c i j).getLast? = some (0, 0) ∧
      List.Chain' (fun p q : ℕ × ℕ => q.1 ≤ p.1 ∧ q.2 ≤ p.2)
        (dtwTraceback c i j) := by
  intro i
  induction i with
  | zero => exact dtwTracebackRow0_facts
  | succ i ih => exact dtwTracebackRow_facts c i (dtwTraceback c i) ih

/-- C4: for feature matrices with m and n columns, the warp path produced
by the continuous time-warp aligner has both coordinates non-decreasing
from each entry to the next, starts at (0, 0), and ends at
(m - 1, n - 1), for every local cost function. -/
theorem warp_path_shape (c : ℕ → ℕ → ℚ) (m n : ℕ) (_hm : 0 < m) (_hn : 0 < n) :
    (warpPath c m n).head? = some (0, 0) ∧
    (warpPath c m n).getLast? = some (m - 1, n - 1) ∧
    List.Chain' (fun p q : ℕ × ℕ => p.1 ≤ q.1 ∧ p.2 ≤ q.2)
      (warpPath c m n) := by
  obtain ⟨hh, hl, hc⟩ := dtwTraceback_facts c (m - 1) (n - 1)
  unfold warpPath
  refine ⟨?_, ?_, ?_⟩
  · rw [List.head?_reverse]; exact hl
  · rw [List.getLast?_reverse]; exact hh
  · rw [List.chain'_reverse]; exact hc

/-- Witness for C4 on two 2-column inputs with a constant cost. -/
theorem warp_path_shape_witness :
    (0 : ℕ) < 2 ∧
    ((warpPath (fun _ _ => (0 : ℚ)) 2 2).head? = some (0, 0) ∧
      (warpPath (fun _ _ => (0 : ℚ)) 2 2).getLast? = some (2 - 1, 2 - 1) ∧
      List.Chain' (fun p q : ℕ × ℕ => p.1 ≤ q.1 ∧ p.2 ≤ q.2)
        (warpPath (fun _ _ => (0 : ℚ)) 2 2)) :=
  ⟨by decide, warp_path_shape (fun _ _ => 0) 2 2 (by decide) (by decide)⟩
